import Mathlib

/-!
Verification of the workout persistence/synchronization core of the
strength-spark-ai repository: the `GoogleSheetsService` class
(src/services/googleSheets.ts) and the `apiLogger` diagnostic event log
(src/lib/apiLogger.ts), shallowly embedded in Lean.

JavaScript numbers that flow through this core are written with
`Number.prototype.toString` and read back with `parseInt` / `parseFloat`.
The values the producer feeds in are non-negative decimal numerals
(reps are integers, weights are decimal fractions), for which the JS
print/parse pipeline is exact; they are modelled as naturals and as
exact decimals (`Decimal`).  Strings are Lean `String`s; the mutable
service/localStorage state is passed explicitly; `fetch`/gapi outcomes
are inputs (a `World` value); thrown exceptions are modelled by outcome
constructors and `Except`.
-/

/-! ### Characters and digit strings -/

/-- The decimal digit character for `d` (used for `d < 10`). -/
def digitChar (d : Nat) : Char :=
  match d with
  | 0 => '0' | 1 => '1' | 2 => '2' | 3 => '3' | 4 => '4'
  | 5 => '5' | 6 => '6' | 7 => '7' | 8 => '8' | 9 => '9'
  | _ => '0'

/-- Numeric value of a decimal digit character. -/
def digitVal (c : Char) : Nat := c.toNat - 48

/-- JS whitespace characters skipped by `parseInt`/`parseFloat`
(ASCII subset of the `\s` class). -/
def jsIsWs (c : Char) : Bool :=
  c == ' ' || c == '\t' || c == '\n' || c == '\r' || c == '\x0b' || c == '\x0c'

/-- Decimal digits of `n`, least significant first, with explicit fuel so
that the definition reduces by kernel computation. -/
def digitsRevFuel : Nat → Nat → List Nat
  | 0, _ => []
  | fuel + 1, n => if n = 0 then [] else n % 10 :: digitsRevFuel fuel (n / 10)

/-- Decimal digits of `n`, least significant first; `0` is rendered as the
single digit `0`, as JS `Number.prototype.toString` does. -/
def natDigitsRev (n : Nat) : List Nat :=
  if n = 0 then [0] else digitsRevFuel (n + 1) n

/-- Characters of the decimal rendering of `n`: the model of
`Number.prototype.toString` for non-negative integers. -/
def natToChars (n : Nat) : List Char :=
  (natDigitsRev n).reverse.map digitChar

/-- Model of JS `n.toString()` for a non-negative integer `n`. -/
def natToString (n : Nat) : String := ⟨natToChars n⟩

/-- Accumulator-style decimal parse of a digit-character list,
most significant digit first. -/
def parseDigitsC (l : List Char) : Nat :=
  l.foldl (fun a c => a * 10 + digitVal c) 0

/-- Model of JS `parseInt(s)` restricted to the non-negative decimal
numerals this application produces: leading JS whitespace is skipped, the
maximal run of decimal digits is parsed, anything after it is ignored,
and `none` stands for `NaN` (no digits).  Sign prefixes and radix
prefixes are outside the modelled value space. -/
def jsParseInt (s : String) : Option Nat :=
  let cs := s.data.dropWhile jsIsWs
  let ds := cs.takeWhile Char.isDigit
  if ds.isEmpty then none else some (parseDigitsC ds)

/-! ### Exact decimals: the values the weight column carries

A `Decimal` is `mantissa / 10 ^ exp`.  The producer obtains weights with
`parseFloat` on decimal user input and the service prints them back
with `toString`; for decimal numerals of this size the JS float pipeline
is exact digit-for-digit, which is what this model captures. -/

structure Decimal where
  mantissa : Nat
  exp : Nat
deriving DecidableEq

/-- Rational value of a decimal. -/
def Decimal.toRat (d : Decimal) : ℚ := (d.mantissa : ℚ) / 10 ^ d.exp

/-- Characters of the decimal rendering: integer part, then, when the
exponent is positive, a point and exactly `exp` fraction digits
(zero-padded on the left). -/
def Decimal.toChars (d : Decimal) : List Char :=
  if d.exp = 0 then natToChars d.mantissa
  else
    natToChars (d.mantissa / 10 ^ d.exp) ++
      '.' :: (List.replicate (d.exp - (natDigitsRev (d.mantissa % 10 ^ d.exp)).length) '0' ++
        natToChars (d.mantissa % 10 ^ d.exp))

/-- Model of JS `w.toString()` for a non-negative decimal weight `w`. -/
def Decimal.render (d : Decimal) : String := ⟨d.toChars⟩

/-- Model of JS `parseFloat(s)` on the non-negative decimal numerals the
weight column carries: leading JS whitespace is skipped, an integer part
and an optional `.` fraction part are parsed, trailing characters are
ignored, and `none` stands for `NaN`.  Signs and exponent notation are
outside the modelled value space. -/
def jsParseFloat (s : String) : Option Decimal :=
  let cs := s.data.dropWhile jsIsWs
  let ids := cs.takeWhile Char.isDigit
  let rest := cs.dropWhile Char.isDigit
  match rest with
  | '.' :: r2 =>
    let fds := r2.takeWhile Char.isDigit
    if ids.isEmpty && fds.isEmpty then none
    else some ⟨parseDigitsC ids * 10 ^ fds.length + parseDigitsC fds, fds.length⟩
  | _ => if ids.isEmpty then none else some ⟨parseDigitsC ids, 0⟩

/-- Model of the JS idiom `parseInt(x) || 0`: `NaN` collapses to `0`
(and `0` stays `0`). -/
def jsIntOr0 (o : Option Nat) : Nat := o.getD 0

/-- Model of the JS idiom `parseFloat(x) || 0`: `NaN` and the number `0`
both yield the canonical zero (JS has a single number `0`; the model
collapses every zero-valued decimal to `⟨0, 0⟩` there). -/
def jsNumOr0 (o : Option Decimal) : Decimal :=
  match o with
  | none => ⟨0, 0⟩
  | some d => if d.mantissa = 0 then ⟨0, 0⟩ else d

/-! ### Print/parse round-trip lemmas -/

theorem digitsRevFuel_eq (fuel : Nat) :
    ∀ n : Nat, n ≤ fuel → digitsRevFuel fuel n = Nat.digits 10 n := by
  induction fuel with
  | zero =>
    intro n hn
    interval_cases n
    simp [digitsRevFuel]
  | succ f ih =>
    intro n hn
    by_cases h0 : n = 0
    · simp [digitsRevFuel, h0]
    · have hpos : 0 < n := Nat.pos_of_ne_zero h0
      have hdiv : n / 10 ≤ f := by
        have h1 : n / 10 < n := Nat.div_lt_self hpos (by norm_num)
        omega
      rw [digitsRevFuel, if_neg h0, ih _ hdiv, Nat.digits_def' (by norm_num : 1 < 10) hpos]

theorem natDigitsRev_eq (n : Nat) :
    natDigitsRev n = if n = 0 then [0] else Nat.digits 10 n := by
  by_cases h : n = 0
  · simp [natDigitsRev, h]
  · simp [natDigitsRev, h, digitsRevFuel_eq (n + 1) n (by omega)]

theorem natDigitsRev_lt_base (n : Nat) : ∀ d ∈ natDigitsRev n, d < 10 := by
  intro d hd
  rw [natDigitsRev_eq] at hd
  by_cases h : n = 0
  · simp [h] at hd
    omega
  · rw [if_neg h] at hd
    exact Nat.digits_lt_base (by norm_num) hd

theorem natDigitsRev_ne_nil (n : Nat) : natDigitsRev n ≠ [] := by
  rw [natDigitsRev_eq]
  by_cases h : n = 0
  · simp [h]
  · simp [h, Nat.digits_ne_nil_iff_ne_zero]

theorem digitVal_digitChar (d : Nat) (h : d < 10) : digitVal (digitChar d) = d := by
  interval_cases d <;> decide

theorem isDigit_digitChar (d : Nat) (h : d < 10) : (digitChar d).isDigit = true := by
  interval_cases d <;> decide

theorem jsIsWs_digitChar (d : Nat) (h : d < 10) : jsIsWs (digitChar d) = false := by
  interval_cases d <;> decide

theorem parseDigitsC_go (l : List Nat) (hl : ∀ d ∈ l, d < 10) (a : Nat) :
    (l.map digitChar).foldl (fun a c => a * 10 + digitVal c) a =
      a * 10 ^ l.length + Nat.ofDigits 10 l.reverse := by
  induction l generalizing a with
  | nil => simp [Nat.ofDigits]
  | cons d t ih =>
    have hd : d < 10 := hl d (by simp)
    have ht : ∀ x ∈ t, x < 10 := fun x hx => hl x (by simp [hx])
    simp only [List.map_cons, List.foldl_cons, ih ht, digitVal_digitChar d hd,
      List.reverse_cons, Nat.ofDigits_append, List.length_cons, List.length_reverse]
    simp [Nat.ofDigits, pow_succ]
    ring

theorem parseDigitsC_map (l : List Nat) (hl : ∀ d ∈ l, d < 10) :
    parseDigitsC (l.map digitChar) = Nat.ofDigits 10 l.reverse := by
  simpa using parseDigitsC_go l hl 0

theorem parseDigitsC_natToChars (n : Nat) : parseDigitsC (natToChars n) = n := by
  unfold natToChars
  rw [parseDigitsC_map _ (fun d hd => natDigitsRev_lt_base n d (by
    simpa using hd)), List.reverse_reverse, natDigitsRev_eq]
  by_cases h : n = 0
  · simp [h, Nat.ofDigits]
  · simp [h, Nat.ofDigits_digits]

theorem natToChars_all_digits (n : Nat) : ∀ c ∈ natToChars n, c.isDigit = true := by
  intro c hc
  unfold natToChars at hc
  obtain ⟨d, hd, rfl⟩ := List.mem_map.mp hc
  exact isDigit_digitChar d (natDigitsRev_lt_base n d (List.mem_reverse.mp hd))

theorem natToChars_ne_nil (n : Nat) : natToChars n ≠ [] := by
  unfold natToChars
  simp [natDigitsRev_ne_nil]

theorem takeWhile_all {p : Char → Bool} {l : List Char} (h : ∀ c ∈ l, p c = true) :
    l.takeWhile p = l := by
  induction l with
  | nil => rfl
  | cons c t ih =>
    simp only [List.takeWhile_cons, h c (by simp), if_true,
      ih fun x hx => h x (by simp [hx])]

theorem dropWhile_all {p : Char → Bool} {l : List Char} (h : ∀ c ∈ l, p c = true) :
    l.dropWhile p = [] := by
  induction l with
  | nil => rfl
  | cons c t ih =>
    rw [List.dropWhile_cons, h c (by simp)]
    exact ih fun x hx => h x (by simp [hx])

theorem takeWhile_append_stop {p : Char → Bool} {l r : List Char} {c : Char}
    (hl : ∀ x ∈ l, p x = true) (hc : p c = false) :
    (l ++ c :: r).takeWhile p = l := by
  induction l with
  | nil => simp [List.takeWhile_cons, hc]
  | cons a t ih =>
    simp only [List.cons_append, List.takeWhile_cons, hl a (by simp), if_true,
      ih fun x hx => hl x (by simp [hx])]

theorem dropWhile_append_stop {p : Char → Bool} {l r : List Char} {c : Char}
    (hl : ∀ x ∈ l, p x = true) (hc : p c = false) :
    (l ++ c :: r).dropWhile p = c :: r := by
  induction l with
  | nil => simp [List.dropWhile_cons, hc]
  | cons a t ih =>
    rw [List.cons_append, List.dropWhile_cons, hl a (by simp)]
    exact ih fun x hx => hl x (by simp [hx])

theorem jsIsWs_eq_false_of_isDigit (c : Char) (h : c.isDigit = true) : jsIsWs c = false := by
  simp only [jsIsWs, Bool.or_eq_false_iff, beq_eq_false_iff_ne, ne_eq]
  refine ⟨⟨⟨⟨⟨?_, ?_⟩, ?_⟩, ?_⟩, ?_⟩, ?_⟩ <;> rintro rfl <;> exact absurd h (by decide)

theorem dropWhile_jsIsWs_of_digits {l : List Char} (hne : l ≠ [])
    (hd : ∀ c ∈ l, c.isDigit = true) : l.dropWhile jsIsWs = l := by
  cases l with
  | nil => exact absurd rfl hne
  | cons c t =>
    simp only [List.dropWhile_cons, jsIsWs_eq_false_of_isDigit c (hd c (by simp)),
      Bool.false_eq_true, if_false]

/-- Reading back a printed natural with the JS `parseInt` model returns
exactly that natural. -/
theorem jsParseInt_natToString (n : Nat) : jsParseInt (natToString n) = some n := by
  have hdata : (natToString n).data = natToChars n := rfl
  simp only [jsParseInt, hdata,
    dropWhile_jsIsWs_of_digits (natToChars_ne_nil n) (natToChars_all_digits n),
    takeWhile_all (natToChars_all_digits n), List.isEmpty_iff, natToChars_ne_nil n,
    if_false, parseDigitsC_natToChars]

theorem parseDigitsC_replicate_zero (j : Nat) (l : List Char) :
    parseDigitsC (List.replicate j '0' ++ l) = parseDigitsC l := by
  induction j with
  | zero => rfl
  | succ k ih =>
    show parseDigitsC ('0' :: (List.replicate k '0' ++ l)) = parseDigitsC l
    unfold parseDigitsC at *
    simpa [digitVal] using ih

theorem natDigitsRev_length_le {k e : Nat} (hk : k < 10 ^ e) (he : 1 ≤ e) :
    (natDigitsRev k).length ≤ e := by
  rw [natDigitsRev_eq]
  by_cases h : k = 0
  · simpa [h] using he
  · rw [if_neg h, Nat.digits_len 10 k (by norm_num) h]
    have := Nat.log_lt_of_lt_pow h hk
    omega

/-- Reading back a printed decimal with the JS `parseFloat` model returns
exactly that decimal. -/
theorem jsParseFloat_render (d : Decimal) : jsParseFloat d.render = some d := by
  obtain ⟨m, e⟩ := d
  have hdata : (Decimal.render ⟨m, e⟩).data = Decimal.toChars ⟨m, e⟩ := rfl
  by_cases he : e = 0
  · subst he
    have hchars : Decimal.toChars ⟨m, 0⟩ = natToChars m := by
      simp [Decimal.toChars]
    simp only [jsParseFloat, hdata, hchars,
      dropWhile_jsIsWs_of_digits (natToChars_ne_nil m) (natToChars_all_digits m),
      takeWhile_all (natToChars_all_digits m), dropWhile_all (natToChars_all_digits m),
      List.isEmpty_iff, natToChars_ne_nil m, if_false, parseDigitsC_natToChars]
  · -- fractional rendering: intChars ++ '.' :: fracChars
    set k := m % 10 ^ e with hk
    set intC := natToChars (m / 10 ^ e) with hintC
    set fracC := List.replicate (e - (natDigitsRev k).length) '0' ++ natToChars k with hfracC
    have hchars : Decimal.toChars ⟨m, e⟩ = intC ++ '.' :: fracC := by
      simp [Decimal.toChars, he, hintC, hfracC, hk]
    have hint_digits : ∀ c ∈ intC, c.isDigit = true := natToChars_all_digits _
    have hfrac_digits : ∀ c ∈ fracC, c.isDigit = true := by
      intro c hc
      rcases List.mem_append.mp hc with h | h
      · rw [List.eq_of_mem_replicate h]; decide
      · exact natToChars_all_digits _ c h
    have hdot : Char.isDigit '.' = false := by decide
    have hcs : (intC ++ '.' :: fracC).dropWhile jsIsWs = intC ++ '.' :: fracC := by
      cases hc : intC with
      | nil => exact absurd hc (natToChars_ne_nil _)
      | cons a t =>
        have ha : a.isDigit = true := by
          apply hint_digits; rw [hc]; simp
        simp only [List.cons_append, List.dropWhile_cons,
          jsIsWs_eq_false_of_isDigit a ha, Bool.false_eq_true, if_false]
    have hklt : k < 10 ^ e := Nat.mod_lt _ (by positivity)
    have hlen : fracC.length = e := by
      rw [hfracC]
      have := natDigitsRev_length_le hklt (by omega)
      simp only [List.length_append, List.length_replicate, natToChars,
        List.length_map, List.length_reverse]
      omega
    have hparse_frac : parseDigitsC fracC = k := by
      rw [hfracC, parseDigitsC_replicate_zero, parseDigitsC_natToChars]
    have hm : parseDigitsC intC * 10 ^ fracC.length + parseDigitsC fracC = m := by
      rw [hlen, hparse_frac, hintC, parseDigitsC_natToChars, hk, Nat.mul_comm]
      exact Nat.div_add_mod m (10 ^ e)
    have hie : (natToChars (m / 10 ^ e)).isEmpty = false := by
      rw [Bool.eq_false_iff]
      intro h
      exact natToChars_ne_nil _ (List.isEmpty_iff.mp h)
    simp only [jsParseFloat, hdata, hchars, hcs, takeWhile_append_stop hint_digits hdot,
      dropWhile_append_stop hint_digits hdot, takeWhile_all hfrac_digits, hie,
      Bool.false_and, Bool.false_eq_true, if_false, Option.some.injEq]
    rw [hm, hlen]

/-! ### Diagnostic event log (src/lib/apiLogger.ts)

The module-level mutable state (`events`, `listeners`) is passed
explicitly.  `makeId()` and `Date.now()` are nondeterministic inputs, so
`log` receives the already-stamped event.  Each subscriber callback is
abstracted by the one bit the failure-semantics claims depend on: whether
invoking it throws.  The `meta` payload is an open-ended diagnostic
record and is not modelled. -/

inductive ApiEventStatus where
  | success
  | error
  | info
deriving DecidableEq

structure ApiEvent where
  id : String
  timestamp : Int
  status : ApiEventStatus
  source : String
  action : String
  message : String
deriving DecidableEq

def MAX_EVENTS : Nat := 100

structure LoggerState where
  events : List ApiEvent
  persisted : Option (List ApiEvent)
  persistOk : Bool
  listeners : List Bool
deriving DecidableEq

namespace apiLogger

/-- Model of `persist()`: `localStorage.setItem(STORAGE_KEY,
JSON.stringify(events.slice(-MAX_EVENTS)))` inside `try/catch`; a failing
`setItem` (`persistOk = false`) is swallowed and leaves the stored copy
unchanged. -/
def persist (st : LoggerState) : LoggerState :=
  if st.persistOk then
    { st with persisted := some (st.events.drop (st.events.length - MAX_EVENTS)) }
  else st

/-- Model of `emit()`: `listeners.forEach((cb) => cb(snapshot))` has no
exception guard, so it throws exactly when some registered callback
throws. -/
def emit (st : LoggerState) : Except Unit Unit :=
  if st.listeners.any (fun b => b) then .error () else .ok ()

/-- Model of `apiLogger.log`: append the stamped event, truncate to the
most recent `MAX_EVENTS` entries when the bound is exceeded, persist,
emit.  The returned `Except` is the outcome of the call (`emit` may throw). -/
def log (evt : ApiEvent) (st : LoggerState) : LoggerState × Except Unit ApiEvent :=
  let evs := st.events ++ [evt]
  let evs2 := if evs.length > MAX_EVENTS then evs.drop (evs.length - MAX_EVENTS) else evs
  let st1 := persist { st with events := evs2 }
  (st1, (emit st1).map fun _ => evt)

/-- Model of `apiLogger.getEvents`: a snapshot copy of the current
events (copying is the identity on immutable values; aliasing is treated
in the heap model below). -/
def getEvents (st : LoggerState) : List ApiEvent := st.events

/-- Model of `apiLogger.clear`. -/
def clear (st : LoggerState) : LoggerState × Except Unit Unit :=
  let st1 := persist { st with events := [] }
  (st1, emit st1)

/-- Model of `apiLogger.subscribe`: registers a callback (abstracted by
its throw bit) and never throws itself. -/
def subscribe (throws : Bool) (st : LoggerState) : LoggerState × Except Unit Unit :=
  ({ st with listeners := st.listeners ++ [throws] }, .ok ())

/-- Model of the unsubscribe handle returned by `subscribe`:
`listeners.delete(cb)`, which never throws. -/
def unsubscribe (i : Nat) (st : LoggerState) : LoggerState × Except Unit Unit :=
  ({ st with listeners := st.listeners.eraseIdx i }, .ok ())

end apiLogger

/-- State reached after a sequence of `apiLogger.log` calls. -/
def runLog (es : List ApiEvent) (st : LoggerState) : LoggerState :=
  es.foldl (fun s e => (apiLogger.log e s).1) st

/-- The most recent `MAX_EVENTS` entries of a list (`slice(-MAX_EVENTS)`). -/
def lastMax (l : List ApiEvent) : List ApiEvent := l.drop (l.length - MAX_EVENTS)

theorem log_fst_events (e : ApiEvent) (st : LoggerState) :
    ((apiLogger.log e st).1).events = lastMax (st.events ++ [e]) := by
  have hlen : (st.events ++ [e]).length = st.events.length + 1 := by simp
  simp only [apiLogger.log, apiLogger.persist, lastMax, hlen]
  by_cases h : MAX_EVENTS < st.events.length + 1
  · by_cases hp : st.persistOk <;> simp [h, hp]
  · have h1 : st.events.length + 1 - MAX_EVENTS = 0 := by omega
    by_cases hp : st.persistOk <;> simp [h, hp, h1]

theorem lastMax_length_le (l : List ApiEvent) : (lastMax l).length ≤ MAX_EVENTS := by
  simp only [lastMax, List.length_drop]
  omega

theorem lastMax_of_le {l : List ApiEvent} (h : l.length ≤ MAX_EVENTS) : lastMax l = l := by
  have : l.length - MAX_EVENTS = 0 := by omega
  simp [lastMax, this]

theorem lastMax_append (l m : List ApiEvent) : lastMax (lastMax l ++ m) = lastMax (l ++ m) := by
  simp only [lastMax, List.length_append, List.length_drop,
    List.drop_append_eq_append_drop, List.drop_drop, List.length_drop]
  have e1 : l.length - MAX_EVENTS + (l.length - (l.length - MAX_EVENTS) + m.length - MAX_EVENTS)
      = l.length + m.length - MAX_EVENTS := by omega
  have e2 : l.length - (l.length - MAX_EVENTS) + m.length - MAX_EVENTS -
      (l.length - (l.length - MAX_EVENTS)) = l.length + m.length - MAX_EVENTS - l.length := by
    omega
  rw [e1, e2]

theorem runLog_events (es : List ApiEvent) :
    ∀ st : LoggerState, st.events.length ≤ MAX_EVENTS →
      (runLog es st).events = lastMax (st.events ++ es) := by
  induction es with
  | nil =>
    intro st h
    simpa [runLog] using (lastMax_of_le h).symm
  | cons e t ih =>
    intro st h
    have hstep : runLog (e :: t) st = runLog t ((apiLogger.log e st).1) := rfl
    rw [hstep, ih _ (by rw [log_fst_events]; exact lastMax_length_le _), log_fst_events,
      lastMax_append, List.append_assoc, List.singleton_append]

/-! ### Heap model of the event log arrays (for snapshot isolation)

JS arrays are mutable references: `events.push` mutates the live array in
place, `events = events.slice(-MAX_EVENTS)` and `[...events]` allocate
fresh arrays.  To state snapshot isolation the arrays are modelled as
addresses into an explicit heap; `delivered` is the ghost record of the
snapshot address handed to subscribers at each notification together with
its contents at that moment. -/

structure HeapLogger where
  heap : List (List ApiEvent)
  live : Nat
  delivered : List (Nat × List ApiEvent)
deriving DecidableEq

/-- Contents of the live `events` array. -/
def HeapLogger.eventsArr (h : HeapLogger) : List ApiEvent := h.heap.getD h.live []

/-- Allocate a fresh array holding `l`; returns its address. -/
def halloc (h : HeapLogger) (l : List ApiEvent) : Nat × HeapLogger :=
  (h.heap.length, { h with heap := h.heap ++ [l] })

/-- In-place `events.push(evt)`. -/
def hpush (h : HeapLogger) (e : ApiEvent) : HeapLogger :=
  { h with heap := h.heap.set h.live (h.eventsArr ++ [e]) }

/-- Model of `emit()` in the heap: allocate the snapshot copy `[...events]` and hand its
address to the subscribers (recorded in `delivered`). -/
def hemit (h : HeapLogger) : HeapLogger :=
  let p := halloc h h.eventsArr
  { p.2 with delivered := p.2.delivered ++ [(p.1, h.eventsArr)] }

/-- The state of `apiLogger.log` just before `emit()`: push in place,
then reassign `events` to a freshly allocated truncated array when over
the bound. -/
def hlogMid (e : ApiEvent) (h : HeapLogger) : HeapLogger :=
  let h1 := hpush h e
  if h1.eventsArr.length > MAX_EVENTS then
    let p := halloc h1 (h1.eventsArr.drop (h1.eventsArr.length - MAX_EVENTS))
    { p.2 with live := p.1 }
  else h1

/-- Heap model of `apiLogger.log`: push in place, reassign `events` to a
freshly allocated truncated array when over the bound, then emit. -/
def hlog (e : ApiEvent) (h : HeapLogger) : HeapLogger := hemit (hlogMid e h)

/-- The state of `apiLogger.clear` just before `emit()`: reassign
`events` to a fresh empty array. -/
def hclearMid (h : HeapLogger) : HeapLogger :=
  let p := halloc h []
  { p.2 with live := p.1 }

/-- Heap model of `apiLogger.clear`: reassign `events` to a fresh empty
array, then emit. -/
def hclear (h : HeapLogger) : HeapLogger := hemit (hclearMid h)

inductive LogOp where
  | recEvt (e : ApiEvent)
  | clearOp
deriving DecidableEq

def applyOp (h : HeapLogger) : LogOp → HeapLogger
  | .recEvt e => hlog e h
  | .clearOp => hclear h

def applyOps (ops : List LogOp) (h : HeapLogger) : HeapLogger := ops.foldl applyOp h

/-- Well-formedness of the heap model: the live address is allocated, and
every delivered snapshot is an allocated array, distinct from the live
array, still holding exactly the contents it had when delivered. -/
def Intact (h : HeapLogger) : Prop :=
  h.live < h.heap.length ∧
    ∀ p ∈ h.delivered, p.1 < h.heap.length ∧ p.1 ≠ h.live ∧ h.heap.getD p.1 [] = p.2

instance (h : HeapLogger) : Decidable (Intact h) := by
  unfold Intact
  infer_instance

theorem getD_append_lt {h : List (List ApiEvent)} {a : Nat} (ha : a < h.length)
    (l : List ApiEvent) : (h ++ [l]).getD a [] = h.getD a [] := by
  simp only [List.getD_eq_getElem?_getD, List.getElem?_append_left ha]

theorem getD_concat_self (h : List (List ApiEvent)) (l : List ApiEvent) :
    (h ++ [l]).getD h.length [] = l := by
  simp only [List.getD_eq_getElem?_getD, List.getElem?_concat_length, Option.getD_some]

theorem getD_set_ne {h : List (List ApiEvent)} {i j : Nat} (hij : i ≠ j)
    (x : List ApiEvent) : (h.set i x).getD j [] = h.getD j [] := by
  simp only [List.getD_eq_getElem?_getD, List.getElem?_set_ne hij]

theorem hemit_intact {h : HeapLogger} (hI : Intact h) : Intact (hemit h) := by
  obtain ⟨hlive, hdel⟩ := hI
  refine ⟨?_, ?_⟩
  · simp only [hemit, halloc, List.length_append, List.length_cons, List.length_nil]
    omega
  · intro p hp
    simp only [hemit, halloc] at hp ⊢
    rcases List.mem_append.mp hp with hold | hnew
    · obtain ⟨h1, h2, h3⟩ := hdel p hold
      refine ⟨by simp; omega, h2, ?_⟩
      rw [getD_append_lt h1, h3]
    · rcases List.mem_singleton.mp hnew with rfl
      refine ⟨by simp, by omega, ?_⟩
      exact getD_concat_self _ _

theorem hemit_delivered (h : HeapLogger) :
    (hemit h).delivered = h.delivered ++ [(h.heap.length, h.eventsArr)] := rfl

theorem hpush_intact {h : HeapLogger} (hI : Intact h) (e : ApiEvent) :
    Intact (hpush h e) := by
  obtain ⟨hlive, hdel⟩ := hI
  refine ⟨by simpa [hpush] using hlive, ?_⟩
  intro p hp
  simp only [hpush] at hp ⊢
  obtain ⟨h1, h2, h3⟩ := hdel p hp
  exact ⟨by simpa using h1, h2, by rw [getD_set_ne (fun hh => h2 hh.symm), h3]⟩

theorem hlogMid_intact {h : HeapLogger} (hI : Intact h) (e : ApiEvent) :
    Intact (hlogMid e h) := by
  have h1I : Intact (hpush h e) := hpush_intact hI e
  simp only [hlogMid]
  by_cases hb : (hpush h e).eventsArr.length > MAX_EVENTS
  · simp only [hb, if_true, halloc]
    obtain ⟨hlive, hdel⟩ := h1I
    refine ⟨by simp, ?_⟩
    intro p hp
    simp only at hp
    obtain ⟨hp1, hp2, hp3⟩ := hdel p hp
    refine ⟨by simp; omega, by simp; omega, ?_⟩
    rw [getD_append_lt hp1, hp3]
  · simpa [hb] using h1I

theorem hlogMid_delivered (e : ApiEvent) (h : HeapLogger) :
    (hlogMid e h).delivered = h.delivered := by
  simp only [hlogMid]
  by_cases hb : (hpush h e).eventsArr.length > MAX_EVENTS
  · rw [if_pos hb]
    rfl
  · rw [if_neg hb]
    rfl

theorem hlog_intact {h : HeapLogger} (hI : Intact h) (e : ApiEvent) :
    Intact (hlog e h) :=
  hemit_intact (hlogMid_intact hI e)

theorem hclearMid_intact {h : HeapLogger} (hI : Intact h) : Intact (hclearMid h) := by
  simp only [hclearMid, halloc]
  obtain ⟨hlive, hdel⟩ := hI
  refine ⟨by simp, ?_⟩
  intro p hp
  simp only at hp
  obtain ⟨hp1, hp2, hp3⟩ := hdel p hp
  refine ⟨by simp; omega, by simp; omega, ?_⟩
  rw [getD_append_lt hp1, hp3]

theorem hclearMid_delivered (h : HeapLogger) :
    (hclearMid h).delivered = h.delivered := rfl

theorem hclear_intact {h : HeapLogger} (hI : Intact h) : Intact (hclear h) :=
  hemit_intact (hclearMid_intact hI)

theorem hemit_eventsArr {h : HeapLogger} (hI : Intact h) :
    (hemit h).eventsArr = h.eventsArr := by
  simp only [hemit, halloc, HeapLogger.eventsArr]
  exact getD_append_lt hI.1 _

theorem hemit_heap_length (h : HeapLogger) :
    (hemit h).heap.length = h.heap.length + 1 := by
  simp [hemit, halloc]

theorem applyOp_intact {h : HeapLogger} (hI : Intact h) (op : LogOp) :
    Intact (applyOp h op) := by
  cases op with
  | recEvt e => exact hlog_intact hI e
  | clearOp => exact hclear_intact hI

theorem applyOp_delivered_mono {h : HeapLogger} {p : Nat × List ApiEvent}
    (hp : p ∈ h.delivered) (op : LogOp) : p ∈ (applyOp h op).delivered := by
  cases op with
  | recEvt e =>
    show p ∈ (hlog e h).delivered
    rw [hlog, hemit_delivered, hlogMid_delivered]
    exact List.mem_append_left _ hp
  | clearOp =>
    show p ∈ (hclear h).delivered
    rw [hclear, hemit_delivered]
    exact List.mem_append_left _ hp

theorem applyOps_intact {h : HeapLogger} (hI : Intact h) (ops : List LogOp) :
    Intact (applyOps ops h) := by
  induction ops generalizing h with
  | nil => exact hI
  | cons op t ih => exact ih (applyOp_intact hI op)

theorem applyOps_delivered_mono {h : HeapLogger} {p : Nat × List ApiEvent}
    (hp : p ∈ h.delivered) (ops : List LogOp) : p ∈ (applyOps ops h).delivered := by
  induction ops generalizing h with
  | nil => exact hp
  | cons op t ih => exact ih (applyOp_delivered_mono hp op)

/-! ### Workout data model (src/data/exercises.ts)

The `WorkoutLog` interface.  The `difficulty` field is not declared on
the interface but `logWorkout` reads `workoutLog.difficulty || ''`, so it
is modelled as an optional string (absent on every produced entry). -/

structure WSet where
  reps : Nat
  weight : Decimal
deriving DecidableEq

structure WorkoutLog where
  exerciseId : String
  exerciseName : String
  sets : List WSet
  date : String
  muscleGroup : String
  difficulty : Option String := none
deriving DecidableEq

/-- The argument record of an `apiLogger.log` call made by the service
(`id`/`timestamp` are stamped inside the logger; `meta` is an open-ended
diagnostic payload and is not modelled). -/
structure LogParams where
  status : ApiEventStatus
  source : String
  action : String
  message : String
deriving DecidableEq

/-- Model of the JS fallback idiom on `error?.message`: an empty
message string is falsy and is replaced by the fallback. -/
def jsMsgOr (msg fallback : String) : String :=
  if msg = "" then fallback else msg

/-! ### GoogleSheetsService (src/services/googleSheets.ts) -/

structure GoogleSheetsConfig where
  apiKey : String
  spreadsheetId : String
  sheetName : String
  accessToken : Option String := none
  clientId : Option String := none
deriving DecidableEq

/-- The `workout_logs` localStorage key as seen through
`getItem`/`JSON.parse`: absent, a parsable list, or corrupt (with the
message of the parse error). -/
inductive StoredLogs where
  | absent
  | good (logs : List WorkoutLog)
  | corrupt (msg : String)
deriving DecidableEq

/-- Reading the workout_logs key with `localStorage.getItem` followed by `JSON.parse`:
`none` models a thrown parse error. -/
def readLogs : StoredLogs → Option (List WorkoutLog)
  | .absent => some []
  | .good logs => some logs
  | .corrupt _ => none

/-- The localStorage state the service reads and writes:
the workout history, whether `setItem` currently succeeds (quota), and
the cached OAuth token and expiry
(`google_access_token` / `google_token_expires`). -/
structure SvcState where
  stored : StoredLogs
  setItemOk : Bool
  googleAccessToken : Option String
  googleTokenExpires : Option Int
deriving DecidableEq

/-- The workout history the Local Durable Store currently holds
(empty when absent or unreadable). -/
def localLogs (st : SvcState) : List WorkoutLog := (readLogs st.stored).getD []

/-- Model of `isTokenValid()`: both localStorage keys present and
`Date.now() < parseInt(expiresAt)`. -/
def isTokenValid (st : SvcState) (now : Int) : Bool :=
  match st.googleAccessToken, st.googleTokenExpires with
  | some _, some expires => decide (now < expires)
  | _, _ => false

/-- The guard `this.config.accessToken && this.isTokenValid()` deciding
whether the remote (OAuth) path is taken. -/
def tokenOk (cfg : GoogleSheetsConfig) (st : SvcState) (now : Int) : Bool :=
  cfg.accessToken.isSome && isTokenValid st now

/-- Outcome of the gapi `values.append` call (`fail` models a thrown
error carrying its message). -/
inductive RemoteAppend where
  | ok
  | fail (msg : String)
deriving DecidableEq

/-- Outcome of the gapi `values.get` call on the OAuth read path. -/
inductive OauthFetch where
  | throws (msg : String)
  | values (vs : List (List String))
deriving DecidableEq

/-- Outcome of the API-key `fetch` on the read path: a thrown
error, or a response with its `ok` flag and parsed `values` rows. -/
inductive KeyFetch where
  | throws (msg : String)
  | resp (ok : Bool) (vs : List (List String))
deriving DecidableEq

/-- The environment of one service call: the clock and the outcomes the
remote endpoints would produce if consulted. -/
structure World where
  nowMs : Int
  append : RemoteAppend
  oauth : OauthFetch
  key : KeyFetch
deriving DecidableEq

/-- Model of `storeWorkoutLocally`: read-parse-push-write of the full
history, with every failure (corrupt stored JSON, failing `setItem`)
caught and swallowed. -/
def storeWorkoutLocally (workoutLog : WorkoutLog) (st : SvcState) : SvcState :=
  match readLogs st.stored with
  | none => st
  | some logs => if st.setItemOk then { st with stored := .good (logs ++ [workoutLog]) } else st

/-- One flattened sheet row for set number `n` (1-based):
`[date, exerciseName, muscleGroup, setNumber, reps, weight,
difficulty, notes]`. -/
def mkRow (w : WorkoutLog) (n : Nat) (s : WSet) : List String :=
  [w.date, w.exerciseName, w.muscleGroup, natToString n, natToString s.reps,
    s.weight.render, w.difficulty.getD "", ""]

def rowsAux (w : WorkoutLog) : Nat → List WSet → List (List String)
  | _, [] => []
  | n, s :: ss => mkRow w n s :: rowsAux w (n + 1) ss

/-- Model of `workoutLog.sets.map((set, index) => [...])`: one row per
set with the 1-based set ordinal. -/
def flattenRows (w : WorkoutLog) : List (List String) := rowsAux w 1 w.sets

/-- The header row the sheet carries in row 1. -/
def headerRow : List String :=
  ["Date", "Exercise Name", "Muscle Group", "Set Number", "Reps", "Weight (kg)",
    "Difficulty Level", "Notes"]

/-- Model of `.replace(/\s+/g, '-')`: each maximal run of whitespace
becomes a single hyphen.  The flag records whether the previous character
was part of a whitespace run. -/
def collapseWsAux : Bool → List Char → List Char
  | _, [] => []
  | afterWs, c :: rest =>
    if jsIsWs c then
      if afterWs then collapseWsAux true rest else '-' :: collapseWsAux true rest
    else c :: collapseWsAux false rest

/-- The synthesized exercise id of `parseSheetData`:
```${muscleGroup}-${exerciseName}`.toLowerCase().replace(/\s+/g, '-')``
(ASCII lowercasing). -/
def jsSlug (muscleGroup exerciseName : String) : String :=
  ⟨collapseWsAux false ((muscleGroup ++ "-" ++ exerciseName).data.map Char.toLower)⟩

/-- Replace each maximal run of non-alphanumeric characters by a single
hyphen (same run structure as `collapseWsAux`, different class). -/
def collapseNonAlnumAux : Bool → List Char → List Char
  | _, [] => []
  | afterRun, c :: rest =>
    if !c.isAlphanum then
      if afterRun then collapseNonAlnumAux true rest
      else '-' :: collapseNonAlnumAux true rest
    else c :: collapseNonAlnumAux false rest

/-- The normalization the specification describes for the synthesized
exercise id: the concatenation lowercased with every run of
non-alphanumeric characters collapsed to a single hyphen.  Stated here
only to compare against `jsSlug`, the id the code computes. -/
def slugPerSpec (muscleGroup exerciseName : String) : String :=
  ⟨collapseNonAlnumAux false ((muscleGroup ++ "-" ++ exerciseName).data.map Char.toLower)⟩

/-- One reconstructed group of `parseSheetData`
(the values stored in the `groupedData` map). -/
structure GroupAcc where
  exerciseId : String
  exerciseName : String
  muscleGroup : String
  date : String
  sets : List WSet
deriving DecidableEq

/-- Model of the push into `groupedData.get(key).sets` on an insertion-order
association list. -/
def updateSets (key : String) (s : WSet) : List (String × GroupAcc) → List (String × GroupAcc)
  | [] => []
  | (k, g) :: rest =>
    if k == key then (k, { g with sets := g.sets ++ [s] }) :: rest
    else (k, g) :: updateSets key s rest

def hasKey (key : String) (acc : List (String × GroupAcc)) : Bool :=
  acc.any fun p => p.1 == key

/-- The body of the row loop of `parseSheetData`.  Out-of-range cells
read as `undefined` in JS; rows of such sheets always carry the 8 string
columns, modelled by the `""` default.  The parsed `setNumber`
(`parseInt(row[3]) || 1`) is computed in the source but never used. -/
def parseRow (acc : List (String × GroupAcc)) (row : List String) : List (String × GroupAcc) :=
  let date := row.getD 0 ""
  let exerciseName := row.getD 1 ""
  let muscleGroup := row.getD 2 ""
  let reps := jsIntOr0 (jsParseInt (row.getD 4 ""))
  let weight := jsNumOr0 (jsParseFloat (row.getD 5 ""))
  let key := date ++ "-" ++ exerciseName
  if hasKey key acc then updateSets key ⟨reps, weight⟩ acc
  else acc ++ [(key, ⟨jsSlug muscleGroup exerciseName, exerciseName, muscleGroup, date,
    [⟨reps, weight⟩]⟩)]

/-- Model of `parseSheetData`: skip the header row, group the data rows
by the `` `${date}-${exerciseName}` `` key preserving first-seen order
(JS `Map` iteration order), then return the grouped entries. -/
def parseSheetData (values : List (List String)) : List WorkoutLog :=
  ((values.drop 1).foldl parseRow []).map fun p =>
    ⟨p.2.exerciseId, p.2.exerciseName, p.2.sets, p.2.date, p.2.muscleGroup, none⟩

/-- The events `logWorkout` records, in source order. -/
def prepEvent (w : WorkoutLog) : LogParams :=
  ⟨.info, "GoogleSheets", "logWorkout", "Preparing to log workout"⟩

def remoteOkEvent (w : WorkoutLog) : LogParams :=
  ⟨.success, "GoogleSheets", "logWorkout",
    "Workout logged to Google Sheets: " ++ w.exerciseName⟩

def localInfoEvent : LogParams :=
  ⟨.info, "LocalStorage", "logWorkout", "Stored locally (not signed in to Google Sheets)"⟩

def logErrorEvent (msg : String) : LogParams :=
  ⟨.error, "GoogleSheets", "logWorkout", jsMsgOr msg "Unknown error while logging workout"⟩

/-- Result of one `logWorkout` call: the returned boolean, the
localStorage state afterwards, and the sequence of diagnostic events the
call handed to `apiLogger.log`. -/
structure LogResult where
  ret : Bool
  st : SvcState
  trace : List LogParams
deriving DecidableEq

/-- Model of `GoogleSheetsService.logWorkout`: log the preparation event
and flatten the sets; with a configured, unexpired token attempt the
remote append (success returns true with no local write; a throw is
caught, logged as an error, the entry is stored locally best-effort, and
false is returned); without a valid token store locally, log the info
event and return true. -/
def logWorkout (cfg : GoogleSheetsConfig) (workoutLog : WorkoutLog) (world : World)
    (st : SvcState) : LogResult :=
  let rows := flattenRows workoutLog
  if tokenOk cfg st world.nowMs then
    match world.append with
    | .ok =>
      { ret := true, st := st, trace := [prepEvent workoutLog, remoteOkEvent workoutLog] }
    | .fail msg =>
      { ret := false, st := storeWorkoutLocally workoutLog st,
        trace := [prepEvent workoutLog, logErrorEvent msg] }
  else
    { ret := true, st := storeWorkoutLocally workoutLog st,
      trace := [prepEvent workoutLog, localInfoEvent] }

/-- Model of `getLocalWorkoutHistory`: read and parse the stored
history (a parse failure is caught, logged, and yields `[]`), filter by
muscle group when given, and log the outcome. -/
def getLocalWorkoutHistory (muscleGroup : Option String) (st : SvcState) :
    List WorkoutLog × List LogParams :=
  match st.stored with
  | .corrupt msg =>
    ([], [⟨.error, "LocalStorage", "getWorkoutHistory",
      jsMsgOr msg "Failed to read workout logs from localStorage"⟩])
  | s =>
    let logs := (readLogs s).getD []
    let result := match muscleGroup with
      | some g => logs.filter fun log => log.muscleGroup == g
      | none => logs
    (result, [⟨.success, "LocalStorage", "getWorkoutHistory",
      "Loaded " ++ natToString result.length ++ " workout logs from localStorage" ++
        (if muscleGroup.isSome then " (filtered)" else "") ++ "."⟩])

def readErrorEvent (msg : String) : LogParams :=
  ⟨.error, "GoogleSheets", "getWorkoutHistory",
    jsMsgOr msg "Failed to read from Google Sheets"⟩

/-- Model of `GoogleSheetsService.getWorkoutHistory`: with a valid token
read via gapi, else read via the API-key `fetch`; rows beyond the header
are parsed and filtered and a success event is logged; a thrown error is
caught and logged; every other outcome (non-2xx response, header-only or
absent data) silently falls back to the local history. -/
def getWorkoutHistory (cfg : GoogleSheetsConfig) (muscleGroup : Option String) (world : World)
    (st : SvcState) : List WorkoutLog × List LogParams :=
  if tokenOk cfg st world.nowMs then
    match world.oauth with
    | .throws msg =>
      let p := getLocalWorkoutHistory muscleGroup st
      (p.1, readErrorEvent msg :: p.2)
    | .values vs =>
      if vs.length > 1 then
        let logs := parseSheetData vs
        let result := match muscleGroup with
          | some g => logs.filter fun log => log.muscleGroup == g
          | none => logs
        (result, [⟨.success, "GoogleSheets", "getWorkoutHistory",
          "Loaded " ++ natToString result.length ++ " workouts from Google Sheets"⟩])
      else getLocalWorkoutHistory muscleGroup st
  else
    match world.key with
    | .throws msg =>
      let p := getLocalWorkoutHistory muscleGroup st
      (p.1, readErrorEvent msg :: p.2)
    | .resp ok vs =>
      if ok && vs.length > 1 then
        let logs := parseSheetData vs
        let result := match muscleGroup with
          | some g => logs.filter fun log => log.muscleGroup == g
          | none => logs
        (result, [⟨.success, "GoogleSheets", "getWorkoutHistory",
          "Loaded " ++ natToString result.length ++ " workouts from Google Sheets (API key)"⟩])
      else getLocalWorkoutHistory muscleGroup st

/-! ### JS dates (UTC model)

`getProgressData` mixes calendar arithmetic (`setDate`, `setMonth`) with
millisecond comparisons.  Dates are modelled in UTC: a civil instant is
`(year, month 0-based, day 1-based, millisecond of day)`, and
`daysFromCivilMonthNorm` is the JS `MakeDay` computation (month overflow
normalized into the year, day overflow into following months), using the
standard era-based day-count formula. -/

structure CivilTime where
  year : Int
  month : Int
  day : Int
  msOfDay : Int
deriving DecidableEq

/-- Day number (days since 1970-01-01) of civil `(y, m, d)` where `m` is
a 0-based month that may lie outside `0..11` and `d` a 1-based day that
may lie outside the month, both normalized as JS `MakeDay` does. -/
def daysFromCivilMonthNorm (y m d : Int) : Int :=
  let y1 : Int := y + m.fdiv 12
  let m1 : Int := m.emod 12
  let y2 : Int := y1 - (if m1 ≤ 1 then 1 else 0)
  let era : Int := y2.fdiv 400
  let yoe : Int := y2 - era * 400
  let mp : Int := (m1 + 10).emod 12
  let doy : Int := (153 * mp + 2).fdiv 5 + (d - 1)
  let doe : Int := yoe * 365 + yoe.fdiv 4 - yoe.fdiv 100 + doy
  era * 146097 + doe - 719468

/-- Epoch milliseconds of a civil instant. -/
def epochMsOfCivil (c : CivilTime) : Int :=
  daysFromCivilMonthNorm c.year c.month c.day * 86400000 + c.msOfDay

inductive TimeRange where
  | week
  | month
  | quarter
deriving DecidableEq

/-- The cutoff instant `getProgressData` computes: a copy of `now` with
`setDate(now.getDate() - 7)` for `week`, `setMonth(now.getMonth() - 1)`
for `month`, `setMonth(now.getMonth() - 3)` for `quarter` (the time of
day is kept). -/
def jsCutoffMs (tr : TimeRange) (nowd : CivilTime) : Int :=
  match tr with
  | .week => daysFromCivilMonthNorm nowd.year nowd.month (nowd.day - 7) * 86400000 + nowd.msOfDay
  | .month => daysFromCivilMonthNorm nowd.year (nowd.month - 1) nowd.day * 86400000 + nowd.msOfDay
  | .quarter => daysFromCivilMonthNorm nowd.year (nowd.month - 3) nowd.day * 86400000 + nowd.msOfDay

def isLeapYear (y : Int) : Bool :=
  (y.emod 4 == 0 && !(y.emod 100 == 0)) || y.emod 400 == 0

/-- Days in 1-based month `m` of year `y`. -/
def daysInMonth (y : Int) (m : Nat) : Nat :=
  match m with
  | 2 => if isLeapYear y then 29 else 28
  | 4 | 6 | 9 | 11 => 30
  | _ => 31

/-- Numeric value of a fixed-width digit-character group. -/
def digitsGroupVal (cs : List Char) : Option Nat :=
  if cs.all Char.isDigit then some (parseDigitsC cs) else none

/-- Model of `new Date(s)` / `Date.parse(s)` on the ISO timestamps this
application writes (`new Date().toISOString()`, i.e.
`YYYY-MM-DDTHH:MM:SS.sssZ`): returns epoch milliseconds, or `none`
(an invalid date, `NaN`) for anything else, including out-of-range
components. -/
def jsParseDate (s : String) : Option Int :=
  match s.data with
  | [y1, y2, y3, y4, '-', o1, o2, '-', d1, d2, 'T',
     h1, h2, ':', i1, i2, ':', e1, e2, '.', f1, f2, f3, 'Z'] =>
    match digitsGroupVal [y1, y2, y3, y4], digitsGroupVal [o1, o2], digitsGroupVal [d1, d2],
      digitsGroupVal [h1, h2], digitsGroupVal [i1, i2], digitsGroupVal [e1, e2],
      digitsGroupVal [f1, f2, f3] with
    | some y, some mo, some d, some h, some mi, some sec, some ms =>
      if 1 ≤ mo && mo ≤ 12 && 1 ≤ d && d ≤ daysInMonth y mo && h < 24 && mi < 60 && sec < 60 then
        some (daysFromCivilMonthNorm y ((mo : Int) - 1) d * 86400000 +
          (((h * 60 + mi) * 60 + sec) * 1000 + ms))
      else none
    | _, _, _, _, _, _, _ => none
  | _ => none

/-- The comparison `new Date(log.date) >= cutoffDate`
(`false` when the date is invalid, as NaN comparisons are). -/
def jsDateGe (s : String) (cutoff : Int) : Bool :=
  match jsParseDate s with
  | some t => decide (cutoff ≤ t)
  | none => false

/-- Sort key used by the comparator
`(a, b) => new Date(a.date).getTime() - new Date(b.date).getTime()`
(entries reaching the sort all have valid dates). -/
def dateMs (log : WorkoutLog) : Int := (jsParseDate log.date).getD 0

/-- Model of `getProgressData`: read the unfiltered history (which logs
its own diagnostic events), filter to the exercise, keep entries at or
after the cutoff, and stable-sort ascending by date. -/
def getProgressData (cfg : GoogleSheetsConfig) (exerciseId : String) (tr : TimeRange)
    (world : World) (nowd : CivilTime) (st : SvcState) : List WorkoutLog × List LogParams :=
  let p := getWorkoutHistory cfg none world st
  let exerciseLogs := p.1.filter fun log => log.exerciseId == exerciseId
  let cutoff := jsCutoffMs tr nowd
  ((exerciseLogs.filter fun log => jsDateGe log.date cutoff).mergeSort
    (fun a b => decide (dateMs a ≤ dateMs b)), p.2)

/-! ### Sample values for concrete witnesses -/

def sampleEvent : ApiEvent := ⟨"evt1", 0, .info, "GoogleSheets", "logWorkout", "msg"⟩

def emptyLogger : LoggerState := ⟨[], none, true, []⟩

def throwingLogger : LoggerState := ⟨[], none, true, [true]⟩

def calmLogger : LoggerState := ⟨[], none, false, [false, false]⟩

def emptyHeapLogger : HeapLogger := ⟨[[]], 0, []⟩

/-! ### Claims -/

/-- C3: the diagnostic event log never holds more than 100 events after
any sequence of record calls (from any legitimately reachable start),
and after recording 150 events into an empty log, `getEvents` returns
exactly the 100 most recently recorded events in oldest-first order (the
50 oldest having been dropped). -/
theorem spec_C3_event_log_bound (es : List ApiEvent) (st : LoggerState)
    (hb : st.events.length ≤ MAX_EVENTS) :
    (runLog es st).events.length ≤ MAX_EVENTS ∧
      (st.events = [] → es.length = 150 →
        apiLogger.getEvents (runLog es st) = es.drop 50) := by
  have hmaster := runLog_events es st hb
  constructor
  · rw [hmaster]
    exact lastMax_length_le _
  · intro h0 h150
    rw [apiLogger.getEvents, hmaster, h0, List.nil_append, lastMax, h150]
    norm_num [MAX_EVENTS]

theorem spec_C3_event_log_bound_witness :
    emptyLogger.events.length ≤ MAX_EVENTS ∧
      apiLogger.getEvents (runLog (List.replicate 150 sampleEvent) emptyLogger) =
        (List.replicate 150 sampleEvent).drop 50 :=
  ⟨by decide,
    (spec_C3_event_log_bound (List.replicate 150 sampleEvent) emptyLogger
      (by decide)).2 rfl (by simp)⟩

/-- C7 counterexample: with a registered subscriber whose callback
throws, `emit()` propagates the exception, so `log` and `clear` throw —
the claim that no public operation ever throws for any registered
callbacks fails. -/
theorem spec_C7_counterexample :
    (apiLogger.log sampleEvent throwingLogger).2 = Except.error () ∧
      (apiLogger.clear throwingLogger).2 = Except.error () :=
  ⟨rfl, rfl⟩

/-- C7 (amended): provided no registered subscriber callback throws, no
public operation of the event log throws, for any input and any
persistence failure (a failing `setItem` is caught and ignored); and
`subscribe` and the unsubscribe handle never throw regardless. -/
theorem spec_C7_no_throw (st : LoggerState) (e : ApiEvent) (i : Nat) (b : Bool)
    (hnb : ∀ l ∈ st.listeners, l = false) :
    (apiLogger.log e st).2 = Except.ok e ∧
      (apiLogger.clear st).2 = Except.ok () ∧
      (apiLogger.subscribe b st).2 = Except.ok () ∧
      (apiLogger.unsubscribe i st).2 = Except.ok () := by
  have hany : ∀ st' : LoggerState, st'.listeners = st.listeners →
      apiLogger.emit st' = Except.ok () := by
    intro st' hl
    have : st'.listeners.any (fun b => b) = false := by
      rw [List.any_eq_false]
      intro x hx
      simpa using hnb x (hl ▸ hx)
    simp [apiLogger.emit, this]
  refine ⟨?_, ?_, rfl, rfl⟩
  · simp only [apiLogger.log]
    rw [hany _ (by by_cases hp : st.persistOk <;> simp [apiLogger.persist, hp])]
    rfl
  · simp only [apiLogger.clear]
    rw [hany _ (by by_cases hp : st.persistOk <;> simp [apiLogger.persist, hp])]

theorem spec_C7_no_throw_witness :
    (∀ l ∈ calmLogger.listeners, l = false) ∧
      (apiLogger.log sampleEvent calmLogger).2 = Except.ok sampleEvent :=
  ⟨by decide, (spec_C7_no_throw calmLogger sampleEvent 0 true (by decide)).1⟩

/-- C9: every record/clear notification hands the subscribers a freshly
allocated snapshot array holding exactly the events of the log at that
moment, and a snapshot delivered earlier is never mutated by any later
sequence of record/clear operations (no shared mutable reference). -/
theorem spec_C9_snapshot_isolation (ops : List LogOp) (st : HeapLogger) (hI : Intact st) :
    Intact (applyOps ops st) ∧
      (∀ p ∈ st.delivered, (applyOps ops st).heap.getD p.1 [] = p.2) ∧
      (∀ e, (hlog e st).delivered =
        st.delivered ++ [((hlog e st).heap.length - 1, (hlog e st).eventsArr)]) ∧
      (hclear st).delivered =
        st.delivered ++ [((hclear st).heap.length - 1, (hclear st).eventsArr)] := by
  have hfin : Intact (applyOps ops st) := applyOps_intact hI ops
  refine ⟨hfin, ?_, ?_, ?_⟩
  · intro p hp
    exact (hfin.2 p (applyOps_delivered_mono hp ops)).2.2
  · intro e
    rw [hlog, hemit_delivered, hlogMid_delivered,
      hemit_eventsArr (hlogMid_intact hI e), hemit_heap_length]
    simp
  · rw [hclear, hemit_delivered, hclearMid_delivered,
      hemit_eventsArr (hclearMid_intact hI), hemit_heap_length]
    simp

theorem spec_C9_snapshot_isolation_witness :
    Intact emptyHeapLogger ∧
      Intact (applyOps [LogOp.recEvt sampleEvent, LogOp.clearOp] emptyHeapLogger) :=
  ⟨by decide,
    (spec_C9_snapshot_isolation [LogOp.recEvt sampleEvent, LogOp.clearOp] emptyHeapLogger
      (by decide)).1⟩

/-! ### Flatten/parse round trip (C4) and the synthesized slug (C6) -/

/-- The set `parseSheetData` reconstructs from the flattened row of `s`. -/
def parsedSet (s : WSet) : WSet :=
  ⟨jsIntOr0 (jsParseInt (natToString s.reps)), jsNumOr0 (jsParseFloat s.weight.render)⟩

theorem parsedSet_reps (s : WSet) : (parsedSet s).reps = s.reps := by
  simp [parsedSet, jsParseInt_natToString, jsIntOr0]

theorem parsedSet_weight_toRat (s : WSet) : (parsedSet s).weight.toRat = s.weight.toRat := by
  simp only [parsedSet, jsParseFloat_render s.weight, jsNumOr0]
  by_cases h : s.weight.mantissa = 0
  · simp [h, Decimal.toRat]
  · simp [h]

theorem parseRow_mkRow (acc : List (String × GroupAcc)) (w : WorkoutLog) (n : Nat) (s : WSet) :
    parseRow acc (mkRow w n s) =
      if hasKey (w.date ++ "-" ++ w.exerciseName) acc then
        updateSets (w.date ++ "-" ++ w.exerciseName) (parsedSet s) acc
      else acc ++ [(w.date ++ "-" ++ w.exerciseName,
        ⟨jsSlug w.muscleGroup w.exerciseName, w.exerciseName, w.muscleGroup, w.date,
          [parsedSet s]⟩)] := rfl

theorem foldl_parseRow_singleton (w : WorkoutLog) (ss : List WSet) :
    ∀ (n : Nat) (g : GroupAcc),
      (rowsAux w n ss).foldl parseRow [(w.date ++ "-" ++ w.exerciseName, g)] =
        [(w.date ++ "-" ++ w.exerciseName, { g with sets := g.sets ++ ss.map parsedSet })] := by
  induction ss with
  | nil =>
    intro n g
    simp [rowsAux]
  | cons s t ih =>
    intro n g
    have hk : hasKey (w.date ++ "-" ++ w.exerciseName)
        [(w.date ++ "-" ++ w.exerciseName, g)] = true := by simp [hasKey]
    have hupd : updateSets (w.date ++ "-" ++ w.exerciseName) (parsedSet s)
        [(w.date ++ "-" ++ w.exerciseName, g)] =
        [(w.date ++ "-" ++ w.exerciseName, { g with sets := g.sets ++ [parsedSet s] })] := by
      simp [updateSets]
    rw [rowsAux, List.foldl_cons, parseRow_mkRow, if_pos hk, hupd, ih (n + 1) _]
    simp

/-- C4: flattening an entry with a non-empty sets sequence into rows and
parsing those rows back (after the header row) reconstructs exactly one
entry with the same date, exerciseName and muscleGroup, and a sets
sequence of the same length and order whose reps and weight values are
preserved. -/
theorem spec_C4_roundtrip (w : WorkoutLog) (h : w.sets ≠ []) :
    ∃ w' : WorkoutLog, parseSheetData (headerRow :: flattenRows w) = [w'] ∧
      w'.date = w.date ∧ w'.exerciseName = w.exerciseName ∧ w'.muscleGroup = w.muscleGroup ∧
      w'.sets.map WSet.reps = w.sets.map WSet.reps ∧
      w'.sets.map (fun s => s.weight.toRat) = w.sets.map fun s => s.weight.toRat := by
  obtain ⟨s, ss, hss⟩ := List.exists_cons_of_ne_nil h
  have hmapreps : ∀ l : List WSet, (l.map parsedSet).map WSet.reps = l.map WSet.reps := by
    intro l
    induction l with
    | nil => rfl
    | cons a t ih => simp [ih, parsedSet_reps]
  have hmapw : ∀ l : List WSet,
      (l.map parsedSet).map (fun s => s.weight.toRat) = l.map fun s => s.weight.toRat := by
    intro l
    induction l with
    | nil => rfl
    | cons a t ih => simp [ih, parsedSet_weight_toRat]
  refine ⟨⟨jsSlug w.muscleGroup w.exerciseName, w.exerciseName, w.sets.map parsedSet,
    w.date, w.muscleGroup, none⟩, ?_, rfl, rfl, rfl, hmapreps w.sets, hmapw w.sets⟩
  have hfirst : parseRow [] (mkRow w 1 s) =
      [(w.date ++ "-" ++ w.exerciseName,
        ⟨jsSlug w.muscleGroup w.exerciseName, w.exerciseName, w.muscleGroup, w.date,
          [parsedSet s]⟩)] := by
    rw [parseRow_mkRow, if_neg (by simp [hasKey])]
    rfl
  simp only [parseSheetData, List.drop_succ_cons, List.drop_zero, flattenRows, hss, rowsAux,
    List.foldl_cons, hfirst, foldl_parseRow_singleton w ss 2 _]
  simp [List.map_cons]

def sampleWorkout : WorkoutLog :=
  ⟨"chest-1", "Push-ups", [⟨10, ⟨0, 0⟩⟩, ⟨8, ⟨25, 1⟩⟩], "2024-01-15T10:00:00.000Z",
    "chest", none⟩

theorem spec_C4_roundtrip_witness :
    sampleWorkout.sets ≠ [] ∧
      ∃ w' : WorkoutLog, parseSheetData (headerRow :: flattenRows sampleWorkout) = [w'] ∧
        w'.date = sampleWorkout.date ∧ w'.exerciseName = sampleWorkout.exerciseName ∧
        w'.muscleGroup = sampleWorkout.muscleGroup ∧
        w'.sets.map WSet.reps = sampleWorkout.sets.map WSet.reps ∧
        w'.sets.map (fun s => s.weight.toRat) =
          sampleWorkout.sets.map fun s => s.weight.toRat :=
  ⟨by decide, spec_C4_roundtrip sampleWorkout (by decide)⟩

/-- The invariant carried by every group the row loop accumulates: its
synthesized id is the whitespace-collapsing slug of its muscle group and
exercise name. -/
def SlugInv (p : String × GroupAcc) : Prop :=
  p.2.exerciseId = jsSlug p.2.muscleGroup p.2.exerciseName

theorem updateSets_slugInv {acc : List (String × GroupAcc)} (hacc : ∀ q ∈ acc, SlugInv q)
    (key : String) (s : WSet) : ∀ q ∈ updateSets key s acc, SlugInv q := by
  induction acc with
  | nil => intro q hq; simp [updateSets] at hq
  | cons p rest ih =>
    intro q hq
    simp only [updateSets] at hq
    by_cases hk : p.1 == key
    · rw [if_pos hk] at hq
      rcases List.mem_cons.mp hq with rfl | hq2
      · exact hacc p (by simp)
      · exact hacc q (by simp [hq2])
    · rw [if_neg hk] at hq
      rcases List.mem_cons.mp hq with rfl | hq2
      · exact hacc p (by simp)
      · exact ih (fun r hr => hacc r (by simp [hr])) _ hq2

theorem parseRow_slugInv {acc : List (String × GroupAcc)} (hacc : ∀ q ∈ acc, SlugInv q)
    (row : List String) : ∀ q ∈ parseRow acc row, SlugInv q := by
  intro q hq
  simp only [parseRow] at hq
  by_cases hk : hasKey (row.getD 0 "" ++ "-" ++ row.getD 1 "") acc
  · rw [if_pos hk] at hq
    exact updateSets_slugInv hacc _ _ q hq
  · rw [if_neg hk] at hq
    rcases List.mem_append.mp hq with h1 | h2
    · exact hacc q h1
    · rcases List.mem_singleton.mp h2 with rfl
      rfl

theorem foldl_parseRow_slugInv (rows : List (List String)) :
    ∀ acc : List (String × GroupAcc), (∀ q ∈ acc, SlugInv q) →
      ∀ q ∈ rows.foldl parseRow acc, SlugInv q := by
  induction rows with
  | nil => intro acc hacc q hq; exact hacc q hq
  | cons row rest ih =>
    intro acc hacc q hq
    exact ih _ (parseRow_slugInv hacc row) q hq

/-- C6 counterexample: for the data row with exercise name `push_up`,
the code synthesizes `chest-push_up` (only whitespace runs become
hyphens), while the claimed normalization (every non-alphanumeric run
collapsed to a single hyphen) yields `chest-push-up`: the two disagree
on this entry. -/
theorem spec_C6_counterexample :
    ((parseSheetData
        [headerRow, ["2024-01-15T10:00:00.000Z", "push_up", "chest", "1", "5", "10", "", ""]]).map
      fun log => decide (log.exerciseId = slugPerSpec log.muscleGroup log.exerciseName)) =
      [false] := by decide

/-- C6 (amended): for every first-seen group of the remote rows, the
synthesized exerciseId is the muscleGroup and exerciseName joined by a
hyphen, lowercased, with every run of whitespace characters (not of all
non-alphanumeric characters) collapsed to a single hyphen. -/
theorem spec_C6_slug (values : List (List String)) (log : WorkoutLog)
    (hmem : log ∈ parseSheetData values) :
    log.exerciseId = jsSlug log.muscleGroup log.exerciseName := by
  simp only [parseSheetData, List.mem_map] at hmem
  obtain ⟨p, hp, rfl⟩ := hmem
  exact foldl_parseRow_slugInv _ [] (by simp) p hp

def sampleParsed : WorkoutLog :=
  ⟨"chest-push-ups", "Push ups", [⟨5, ⟨25, 1⟩⟩], "2024-01-15T10:00:00.000Z", "Chest", none⟩

theorem spec_C6_slug_witness :
    sampleParsed ∈ parseSheetData
        [headerRow, ["2024-01-15T10:00:00.000Z", "Push ups", "Chest", "1", "5", "2.5", "", ""]] ∧
      sampleParsed.exerciseId = jsSlug sampleParsed.muscleGroup sampleParsed.exerciseName :=
  ⟨by decide,
    spec_C6_slug
      [headerRow, ["2024-01-15T10:00:00.000Z", "Push ups", "Chest", "1", "5", "2.5", "", ""]]
      sampleParsed (by decide)⟩

/-! ### logWorkout claims (C1, C2, C10) -/

def cfgTok : GoogleSheetsConfig := ⟨"key", "sid", "Sheet1", some "tok", none⟩

def cfgNoTok : GoogleSheetsConfig := ⟨"key", "sid", "Sheet1", none, none⟩

def stTok : SvcState := ⟨.good [], true, some "tok", some 1000⟩

def stBroken : SvcState := ⟨.corrupt "SyntaxError", false, none, none⟩

def worldFail : World := ⟨0, .fail "network", .values [], .resp true []⟩

def worldOk : World := ⟨0, .ok, .values [], .resp true []⟩

def worldDown : World := ⟨0, .ok, .values [], .resp false []⟩

/-- C1 counterexample: with a valid bearer token and a failing remote
append, `logWorkout` returns `false` (not `true`), and the diagnostic
trace is the preparation `info` event followed by the `error` event
only — no `success` event for the local write is recorded, even though
the entry was stored locally. -/
theorem spec_C1_counterexample :
    tokenOk cfgTok stTok worldFail.nowMs = true ∧
      (logWorkout cfgTok sampleWorkout worldFail stTok).ret = false ∧
      (logWorkout cfgTok sampleWorkout worldFail stTok).st.stored =
        .good [sampleWorkout] ∧
      (logWorkout cfgTok sampleWorkout worldFail stTok).trace.map LogParams.status =
        [.info, .error] := by
  refine ⟨rfl, rfl, ?_, rfl⟩
  decide

/-- C1 (amended): when a valid bearer token is configured and the remote
append throws, `logWorkout` records an `error` event for the remote
attempt, appends the entry to the local durable history (when the local
store is readable and writable), records no further event, and returns
`false` — the return value is `false` whenever the remote append fails,
even though the local write succeeded. -/
theorem spec_C1_remote_failure (cfg : GoogleSheetsConfig) (w : WorkoutLog) (world : World)
    (st : SvcState) (msg : String) (logs : List WorkoutLog)
    (htok : tokenOk cfg st world.nowMs = true) (hfail : world.append = .fail msg)
    (hgood : st.stored = .good logs) (hset : st.setItemOk = true) :
    (logWorkout cfg w world st).ret = false ∧
      (logWorkout cfg w world st).st.stored = .good (logs ++ [w]) ∧
      (logWorkout cfg w world st).trace.map LogParams.status =
        [.info, .error] := by
  obtain ⟨s1, s2, s3, s4⟩ := st
  simp only at hgood hset
  subst hgood hset
  simp [logWorkout, htok, hfail, storeWorkoutLocally, readLogs, prepEvent, logErrorEvent]

theorem spec_C1_remote_failure_witness :
    (tokenOk cfgTok stTok worldFail.nowMs = true ∧ worldFail.append = .fail "network" ∧
        stTok.stored = .good [] ∧ stTok.setItemOk = true) ∧
      (logWorkout cfgTok sampleWorkout worldFail stTok).ret = false :=
  ⟨⟨rfl, rfl, rfl, rfl⟩,
    (spec_C1_remote_failure cfgTok sampleWorkout worldFail stTok "network" []
      rfl rfl rfl rfl).1⟩

/-- C2 counterexample: with a valid bearer token and a succeeding remote
append, `logWorkout` leaves the local store untouched — the entry is not
appended to the local history, so the local write is not unconditional. -/
theorem spec_C2_counterexample :
    tokenOk cfgTok stTok worldOk.nowMs = true ∧
      (logWorkout cfgTok sampleWorkout worldOk stTok).st = stTok ∧
      localLogs (logWorkout cfgTok sampleWorkout worldOk stTok).st = [] := by
  refine ⟨rfl, rfl, ?_⟩
  decide

/-- C2 (amended): the local write happens exactly when the remote append
is not attempted (no valid bearer token) or fails; when the remote
append succeeds the entry is not written to the Local Durable Store and
the state is unchanged. -/
theorem spec_C2_local_write (cfg : GoogleSheetsConfig) (w : WorkoutLog) (world : World)
    (st : SvcState) :
    ((tokenOk cfg st world.nowMs = true ∧ world.append = .ok) →
        (logWorkout cfg w world st).st = st) ∧
      (tokenOk cfg st world.nowMs = false →
        (logWorkout cfg w world st).st = storeWorkoutLocally w st) ∧
      (∀ msg, tokenOk cfg st world.nowMs = true → world.append = .fail msg →
        (logWorkout cfg w world st).st = storeWorkoutLocally w st) := by
  refine ⟨?_, ?_, ?_⟩
  · rintro ⟨htok, hok⟩
    simp [logWorkout, htok, hok]
  · intro htok
    simp [logWorkout, htok]
  · intro msg htok hfail
    simp [logWorkout, htok, hfail]

theorem spec_C2_local_write_witness :
    tokenOk cfgNoTok stTok worldOk.nowMs = false ∧
      (logWorkout cfgNoTok sampleWorkout worldOk stTok).st =
        storeWorkoutLocally sampleWorkout stTok :=
  ⟨rfl, (spec_C2_local_write cfgNoTok sampleWorkout worldOk stTok).2.1 rfl⟩

/-- C10: whenever no valid, unexpired bearer token is configured,
`logWorkout` returns `true` for every entry and every local-store state,
including a corrupt store or a failing `setItem` (the local-store error
is swallowed inside `storeWorkoutLocally`); and `logWorkout` returns
`false` only when the remote path was taken and its append threw. -/
theorem spec_C10_local_swallow (cfg : GoogleSheetsConfig) (w : WorkoutLog) (world : World)
    (st : SvcState) :
    (tokenOk cfg st world.nowMs = false → (logWorkout cfg w world st).ret = true) ∧
      ((logWorkout cfg w world st).ret = false →
        tokenOk cfg st world.nowMs = true ∧ ∃ msg, world.append = .fail msg) := by
  constructor
  · intro htok
    simp [logWorkout, htok]
  · intro hret
    by_cases htok : tokenOk cfg st world.nowMs
    · cases ha : world.append with
      | ok => simp [logWorkout, htok, ha] at hret
      | fail msg => exact ⟨htok, msg, rfl⟩
    · simp only [Bool.not_eq_true] at htok
      simp [logWorkout, htok] at hret

theorem spec_C10_local_swallow_witness :
    tokenOk cfgNoTok stBroken worldOk.nowMs = false ∧
      (logWorkout cfgNoTok sampleWorkout worldOk stBroken).ret = true :=
  ⟨rfl, (spec_C10_local_swallow cfgNoTok sampleWorkout worldOk stBroken).1 rfl⟩

/-! ### getWorkoutHistory filter claim (C8) -/

/-- The remote read yields no usable data (throws, non-2xx, or at most
the header row), so `getWorkoutHistory` serves the local history. -/
def remoteNoData (cfg : GoogleSheetsConfig) (world : World) (st : SvcState) : Bool :=
  if tokenOk cfg st world.nowMs then
    match world.oauth with
    | .throws _ => true
    | .values vs => decide (vs.length ≤ 1)
  else
    match world.key with
    | .throws _ => true
    | .resp ok vs => !ok || decide (vs.length ≤ 1)

theorem getWorkoutHistory_local_fst (cfg : GoogleSheetsConfig) (world : World)
    (st : SvcState) (hnd : remoteNoData cfg world st = true) (mg : Option String) :
    (getWorkoutHistory cfg mg world st).1 = (getLocalWorkoutHistory mg st).1 := by
  by_cases htok : tokenOk cfg st world.nowMs
  · simp only [remoteNoData, htok, if_true] at hnd
    cases ho : world.oauth with
    | throws msg => simp [getWorkoutHistory, htok, ho]
    | values vs =>
      rw [ho] at hnd
      have hle : ¬ vs.length > 1 := by simpa using hnd
      simp [getWorkoutHistory, htok, ho, hle]
  · have htok' : tokenOk cfg st world.nowMs = false := by simpa using htok
    simp only [remoteNoData, htok', Bool.false_eq_true, if_false] at hnd
    cases hk : world.key with
    | throws msg => simp [getWorkoutHistory, htok', hk]
    | resp ok vs =>
      rw [hk] at hnd
      have hcond : (ok && decide (vs.length > 1)) = false := by
        rcases Bool.or_eq_true_iff.mp hnd with h | h
        · simp [Bool.not_eq_true' .. ▸ h]
        · have : vs.length ≤ 1 := of_decide_eq_true h
          simp [show ¬ vs.length > 1 by omega]
      simp only [getWorkoutHistory, htok', Bool.false_eq_true, if_false]
      rw [hk]
      simp only [gt_iff_lt, decide_eq_true_eq] at hcond ⊢
      by_cases hok : ok
      · subst hok
        simp only [Bool.true_and] at hcond ⊢
        simp [hcond]
      · simp only [Bool.not_eq_true] at hok
        subst hok
        simp

/-- C8: when the remote read yields no data, `getWorkoutHistory g`
returns exactly the entries of the stored local history whose
muscleGroup equals `g`, as an order-preserving subsequence, and with no
filter it returns the whole stored history in order. -/
theorem spec_C8_filter (cfg : GoogleSheetsConfig) (world : World) (st : SvcState)
    (g : String) (logs : List WorkoutLog) (hgood : st.stored = .good logs)
    (hnd : remoteNoData cfg world st = true) :
    (getWorkoutHistory cfg (some g) world st).1 =
        logs.filter (fun log => log.muscleGroup == g) ∧
      ((getWorkoutHistory cfg (some g) world st).1).Sublist logs ∧
      (∀ log, log ∈ (getWorkoutHistory cfg (some g) world st).1 ↔
        log ∈ logs ∧ log.muscleGroup = g) ∧
      (getWorkoutHistory cfg none world st).1 = logs := by
  have h1 := getWorkoutHistory_local_fst cfg world st hnd (some g)
  have h2 := getWorkoutHistory_local_fst cfg world st hnd none
  have hloc1 : (getLocalWorkoutHistory (some g) st).1 =
      logs.filter fun log => log.muscleGroup == g := by
    simp [getLocalWorkoutHistory, hgood, readLogs]
  have hloc2 : (getLocalWorkoutHistory none st).1 = logs := by
    simp [getLocalWorkoutHistory, hgood, readLogs]
  refine ⟨h1.trans hloc1, ?_, ?_, h2.trans hloc2⟩
  · rw [h1, hloc1]
    exact List.filter_sublist logs
  · intro log
    rw [h1, hloc1, List.mem_filter]
    simp

theorem spec_C8_filter_witness :
    (stTok.stored = .good [] ∧ remoteNoData cfgNoTok worldDown stTok = true) ∧
      (getWorkoutHistory cfgNoTok (some "chest") worldDown stTok).1 =
        List.filter (fun log => log.muscleGroup == "chest") [] :=
  ⟨⟨rfl, rfl⟩, (spec_C8_filter cfgNoTok worldDown stTok "chest" [] rfl rfl).1⟩

/-! ### getProgressData claim (C5) -/

theorem daysFromCivilMonthNorm_day_shift (y m d k : Int) :
    daysFromCivilMonthNorm y m (d - k) = daysFromCivilMonthNorm y m d - k := by
  simp only [daysFromCivilMonthNorm]
  ring

/-- Calling `setDate` with `now.getDate() - 7` on a copy of `now` is exactly `now`
minus 7 days of milliseconds. -/
theorem jsCutoff_week (nowd : CivilTime) :
    jsCutoffMs .week nowd = epochMsOfCivil nowd - 7 * 86400000 := by
  simp only [jsCutoffMs, epochMsOfCivil, daysFromCivilMonthNorm_day_shift]
  ring

/-- C5 counterexample: `getProgressData` delegates to
`getWorkoutHistory()`, which records diagnostic events — here the local
fallback read records a `success` event — so the operation is not free
of diagnostic events. -/
theorem spec_C5_counterexample :
    (getProgressData cfgNoTok "chest-1" .week worldDown ⟨2024, 0, 15, 0⟩ stTok).2 =
      [⟨.success, "LocalStorage", "getWorkoutHistory",
        "Loaded 0 workout logs from localStorage."⟩] := rfl

/-- C5 (amended): `getProgressData` returns exactly the entries of the
unfiltered history whose exerciseId matches and whose (valid) date is at
or after the cutoff — `now` minus 7 days for `week` (proved as an exact
millisecond shift), and the JS calendar-normalized month subtraction for
`month`/`quarter` — sorted ascending by date; the computation after the
history read is pure, but the underlying `getWorkoutHistory()` call does
record its diagnostic events, which are exactly the events of the
operation. -/
theorem spec_C5_progress_view (cfg : GoogleSheetsConfig) (exerciseId : String)
    (tr : TimeRange) (world : World) (nowd : CivilTime) (st : SvcState) :
    ((getProgressData cfg exerciseId tr world nowd st).1).Perm
        (((getWorkoutHistory cfg none world st).1).filter fun log =>
          log.exerciseId == exerciseId && jsDateGe log.date (jsCutoffMs tr nowd)) ∧
      List.Pairwise (fun a b => dateMs a ≤ dateMs b)
        (getProgressData cfg exerciseId tr world nowd st).1 ∧
      (getProgressData cfg exerciseId tr world nowd st).2 =
        (getWorkoutHistory cfg none world st).2 ∧
      jsCutoffMs .week nowd = epochMsOfCivil nowd - 7 * 86400000 := by
  refine ⟨?_, ?_, rfl, jsCutoff_week nowd⟩
  · have hperm := List.mergeSort_perm
      (((((getWorkoutHistory cfg none world st).1).filter
          fun log => log.exerciseId == exerciseId).filter
        fun log => jsDateGe log.date (jsCutoffMs tr nowd)))
      (fun a b => decide (dateMs a ≤ dateMs b))
    have hX : ((((getWorkoutHistory cfg none world st).1).filter
          fun log => log.exerciseId == exerciseId).filter
        fun log => jsDateGe log.date (jsCutoffMs tr nowd)) =
        ((getWorkoutHistory cfg none world st).1).filter fun log =>
          log.exerciseId == exerciseId && jsDateGe log.date (jsCutoffMs tr nowd) := by
      rw [List.filter_filter]
      exact List.filter_congr fun a _ => Bool.and_comm _ _
    rw [← hX]
    exact hperm
  · have htrans : ∀ a b c : WorkoutLog, decide (dateMs a ≤ dateMs b) = true →
        decide (dateMs b ≤ dateMs c) = true → decide (dateMs a ≤ dateMs c) = true := by
      intro a b c h1 h2
      simp only [decide_eq_true_eq] at h1 h2 ⊢
      omega
    have htotal : ∀ a b : WorkoutLog,
        (decide (dateMs a ≤ dateMs b) || decide (dateMs b ≤ dateMs a)) = true := by
      intro a b
      simp only [Bool.or_eq_true, decide_eq_true_eq]
      omega
    have hs := List.sorted_mergeSort htrans htotal
      (((((getWorkoutHistory cfg none world st).1).filter
          fun log => log.exerciseId == exerciseId).filter
        fun log => jsDateGe log.date (jsCutoffMs tr nowd)))
    exact hs.imp fun h => of_decide_eq_true h
